import Mathlib

/-!
Shallow embedding of the httpyac VS Code completion provider
(`HttpCompletionItemProvider` and its helper methods) together with proofs
about the completion behaviour.  JavaScript string operations used by the
source (`trim`, `toLowerCase`, `startsWith`, `length`, `slice`,
`indexOf(sub) >= 0`) are modelled explicitly on the character list underlying
a `String`; all inputs of interest are ASCII, where these models agree with
the JavaScript semantics.
-/

namespace VscodeHttpyac

/-- Whitespace test used by the `trim` model. -/
def isWs (c : Char) : Bool := c.isWhitespace

/-- Model of JavaScript `String.prototype.trim`. -/
def jsTrim (s : String) : String :=
  ⟨((s.data.dropWhile isWs).reverse.dropWhile isWs).reverse⟩

/-- Model of JavaScript `String.prototype.toLowerCase` (ASCII). -/
def jsToLower (s : String) : String := ⟨s.data.map Char.toLower⟩

/-- Model of JavaScript `s.startsWith(p)`. -/
def jsStartsWith (s p : String) : Bool := p.data.isPrefixOf s.data

/-- Model of JavaScript `s.length` (ASCII: code units = characters). -/
def jsLength (s : String) : Nat := s.data.length

/-- Model of JavaScript `s.slice(n)` for a non-negative index `n`. -/
def jsSlice (s : String) (n : Nat) : String := ⟨s.data.drop n⟩

/-- Substring occurrence on character lists (`sub` occurs in the second list). -/
def containsSub : List Char → List Char → Bool
  | sub, [] => sub.isEmpty
  | sub, c :: t => sub.isPrefixOf (c :: t) || containsSub sub t

/-- Model of JavaScript `s.indexOf(sub) >= 0`. -/
def jsIncludes (s sub : String) : Bool := containsSub sub.data s.data

/-- `vscode.CompletionItemKind` values used by the provider. -/
inductive CompletionItemKind where
  | keyword
  | field
  | value
  | reference
  deriving DecidableEq

/-- The `HttpCompletionItem` interface of the source file. -/
structure HttpCompletionItem where
  name : String
  description : String
  text : Option String := none
  kind : CompletionItemKind
  deriving DecidableEq

/-- `httpyac.HttpSymbolKind`, restricted to the kinds the provider inspects. -/
inductive HttpSymbolKind where
  | requestLine
  | requestHeader
  | other
  deriving DecidableEq

/-- A child node of a region symbol (only the fields the provider reads). -/
structure HttpSymbol where
  startLine : Int
  kind : HttpSymbolKind
  deriving DecidableEq

/-- The symbol of an `httpyac.HttpRegion` (line range and child symbols). -/
structure RegionSymbol where
  startLine : Int
  endLine : Int
  children : Option (List HttpSymbol) := none
  deriving DecidableEq

/-- Which `httpyac.utils.is*Request` type guard accepts a parsed request. -/
inductive RequestKind where
  | http
  | mqtt
  | eventSource
  | grpc
  | unknown
  deriving DecidableEq

/-- An `httpyac.HttpRegion` (only the fields the provider reads);
`metaDataName` models `httpRegion.metaData.name`. -/
structure HttpRegion where
  symbol : RegionSymbol
  request : Option RequestKind := none
  metaDataName : Option String := none
  deriving DecidableEq

/-- An `httpyac.HttpFile` (only the region list is read). -/
structure HttpFile where
  httpRegions : List HttpRegion
  deriving DecidableEq

/-- An entry of `httpyac.parser.knownMetaData`. -/
structure MetaDirective where
  name : String
  description : String
  completions : Option (List String) := none
  deriving DecidableEq

/-- The `vscode.CompletionItem` produced by the final mapping of
`provideCompletionItems` (label, detail, insertText, kind). -/
structure CompletionItem where
  label : String
  detail : String
  insertText : String
  kind : CompletionItemKind
  deriving DecidableEq

/-- The method table built inside `getRequstMethodCompletionItems`. -/
def methodTable : List HttpCompletionItem :=
  [{ name := "GET",
     description := "The GET method requests a representation of the specified resource. Requests using GET should only retrieve data.",
     kind := .keyword },
   { name := "HEAD",
     description := "The GET method requests a representation of the specified resource. Requests using GET should only retrieve data.",
     kind := .keyword },
   { name := "POST",
     description := "The POST method is used to submit an entity to the specified resource, often causing a change in state or side effects on the server.",
     kind := .keyword },
   { name := "PUT",
     description := "The PUT method replaces all current representations of the target resource with the request payload.",
     kind := .keyword },
   { name := "DELETE",
     description := "The DELETE method deletes the specified resource.",
     kind := .keyword },
   { name := "CONNECT",
     description := "The CONNECT method establishes a tunnel to the server identified by the target resource.",
     kind := .keyword },
   { name := "OPTIONS",
     description := "The OPTIONS method is used to describe the communication options for the target resource.",
     kind := .keyword },
   { name := "TRACE",
     description := "The TRACE method performs a message loop-back test along the path to the target resource.",
     kind := .keyword },
   { name := "PATCH",
     description := "The PATCH method is used to apply partial modifications to a resource.",
     kind := .keyword },
   { name := "MQTT",
     description := "MQTT request",
     kind := .keyword },
   { name := "WSS",
     description := "WSS request",
     kind := .keyword },
   { name := "SSE",
     description := "Server Sent Event",
     kind := .keyword },
   { name := "GRPC",
     description := "GRPC request",
     kind := .keyword }]

/-- `getRequstMethodCompletionItems` (typo of the source preserved): the
method table filtered by
`textLine.length === 0 || obj.name.toLowerCase().startsWith(textLine)`. -/
def getRequstMethodCompletionItems (textLine : String) : List HttpCompletionItem :=
  methodTable.filter fun obj =>
    jsLength textLine == 0 || jsStartsWith (jsToLower obj.name) textLine

/-- The HTTP header-field table pushed by `getRequestHeaders` when
`httpyac.utils.isHttpRequest` accepts the request. -/
def httpHeaderTable : List HttpCompletionItem :=
  [{ name := "A-IM",
     description := "Acceptable instance-manipulations for the request.",
     kind := .field },
   { name := "Accept",
     description := "Media type(s) that is/are acceptable for the response. See Content negotiation.",
     kind := .field },
   { name := "Accept-Charset",
     description := "Character sets that are acceptable.",
     kind := .field },
   { name := "Accept-Datetime",
     description := "Acceptable version in time.",
     kind := .field },
   { name := "Accept-Encoding",
     description := "List of acceptable encodings. See HTTP compression.",
     kind := .field },
   { name := "Accept-Language",
     description := "List of acceptable human languages for response. See Content negotiation.",
     kind := .field },
   { name := "Access-Control-Request-Method",
     description := "Initiates a request for cross-origin resource sharing with Origin (below).",
     kind := .field },
   { name := "Access-Control-Request-Headers",
     description := "Initiates a request for cross-origin resource sharing with Origin (below).",
     kind := .field },
   { name := "Authorization",
     description := "Authentication credentials for HTTP authentication.",
     kind := .field },
   { name := "Cache-Control",
     description := "Used to specify directives that must be obeyed by all caching mechanisms along the request-response chain.",
     kind := .field },
   { name := "Connection",
     description := "Control options for the current connection and list of hop-by-hop request fields. Must not be used with HTTP/2.",
     kind := .field },
   { name := "Content-Encoding",
     description := "The type of encoding used on the data. See HTTP compression.",
     kind := .field },
   { name := "Content-Length",
     description := "The length of the request body in octets (8-bit bytes).",
     kind := .field },
   { name := "Content-MD5",
     description := "A Base64-encoded binary MD5 sum of the content of the request body.",
     kind := .field },
   { name := "Content-Type",
     description := "The Media type of the body of the request (used with POST and PUT requests).",
     kind := .field },
   { name := "Cookie",
     description := "An HTTP cookie previously sent by the server with Set-Cookie (below).",
     kind := .field },
   { name := "Date",
     description := "The date and time at which the message was originated (in \"HTTP-date\" format as defined by RFC 7231 Date/Time Formats).",
     kind := .field },
   { name := "Expect",
     description := "Indicates that particular server behaviors are required by the client.",
     kind := .field },
   { name := "Forwarded",
     description := "Disclose original information of a client connecting to a web server through an HTTP proxy.",
     kind := .field },
   { name := "From",
     description := "The email address of the user making the request.",
     kind := .field },
   { name := "Host",
     description := "The domain name of the server (for virtual hosting), and the TCP port number on which the server is listening. The port number may be omitted if the port is the standard port for the service requested. Mandatory since HTTP/1.1. If the request is generated directly in HTTP/2, it should not be used.",
     kind := .field },
   { name := "HTTP2-Settings",
     description := "A request that upgrades from HTTP/1.1 to HTTP/2 MUST include exactly one HTTP2-Setting header field. The HTTP2-Settings header field is a connection-specific header field that includes parameters that govern the HTTP/2 connection, provided in anticipation of the server accepting the request to upgrade.",
     kind := .field },
   { name := "If-Match",
     description := "Only perform the action if the client supplied entity matches the same entity on the server. This is mainly for methods like PUT to only update a resource if it has not been modified since the user last updated it.",
     kind := .field },
   { name := "If-Modified-Since",
     description := "Allows a 304 Not Modified to be returned if content is unchanged.",
     kind := .field },
   { name := "If-None-Match",
     description := "Allows a 304 Not Modified to be returned if content is unchanged, see HTTP ETag.",
     kind := .field },
   { name := "If-Range",
     description := "If the entity is unchanged, send me the part(s) that I am missing; otherwise, send me the entire new entity.",
     kind := .field },
   { name := "If-Unmodified-Since",
     description := "Only send the response if the entity has not been modified since a specific time.",
     kind := .field },
   { name := "Max-Forwards",
     description := "Limit the number of times the message can be forwarded through proxies or gateways.",
     kind := .field },
   { name := "Origin",
     description := "Initiates a request for cross-origin resource sharing (asks server for Access-Control-* response fields).",
     kind := .field },
   { name := "Pragma",
     description := "Implementation-specific fields that may have various effects anywhere along the request-response chain.",
     kind := .field },
   { name := "Proxy-Authorization",
     description := "Authorization credentials for connecting to a proxy.",
     kind := .field },
   { name := "Range",
     description := "Request only part of an entity. Bytes are numbered from 0. See Byte serving.",
     kind := .field },
   { name := "Referer",
     description := "This is the address of the previous web page from which a link to the currently requested page was followed. (The word \"referrer\" has been misspelled in the RFC as well as in most implementations to the point that it has become standard usage and is considered correct terminology)",
     kind := .field },
   { name := "TE",
     description := "The transfer encodings the user agent is willing to accept: the same values as for the response header field Transfer-Encoding can be used, plus the \"trailers\" value (related to the \"chunked\" transfer method) to notify the server it expects to receive additional fields in the trailer after the last, zero-sized, chunk. Only trailers is supported in HTTP/2.",
     kind := .field },
   { name := "Trailer",
     description := "The Trailer general field value indicates that the given set of header fields is present in the trailer of a message encoded with chunked transfer coding.",
     kind := .field },
   { name := "Transfer-Encoding",
     description := "The form of encoding used to safely transfer the entity to the user. Currently defined methods are: chunked, compress, deflate, gzip, identity. Must not be used with HTTP/2",
     kind := .field },
   { name := "User-Agent",
     description := "The user agent string of the user agent.",
     kind := .field },
   { name := "Upgrade",
     description := "Ask the server to upgrade to another protocol. Must not be used in HTTP/2.",
     kind := .field },
   { name := "Via",
     description := "Informs the server of proxies through which the request was sent.",
     kind := .field },
   { name := "Warning",
     description := "A general warning about possible problems with the entity body.",
     kind := .field },
   { name := "Upgrade-Insecure-Requests",
     description := "Tells a server which (presumably in the middle of a HTTP -> HTTPS migration) hosts mixed content that the client would prefer redirection to HTTPS and can handle Content-Security-Policy: upgrade-insecure-requests Must not be used with HTTP/2",
     kind := .field },
   { name := "X-Requested-With",
     description := "Mainly used to identify Ajax requests (most JavaScript frameworks send this field with value of XMLHttpRequest); also identifies Android apps using WebView",
     kind := .field },
   { name := "DNT",
     description := "Requests a web application to disable their tracking of a user. This is Mozilla`s version of the X-Do-Not-Track header field (since Firefox 4.0 Beta 11). Safari and IE9 also have support for this field. On March 7, 2011, a draft proposal was submitted to IETF. The W3C Tracking Protection Working Group is producing a specification.",
     kind := .field },
   { name := "X-Forwarded-For",
     description := "A de facto standard for identifying the originating IP address of a client connecting to a web server through an HTTP proxy or load balancer. Superseded by Forwarded header.",
     kind := .field },
   { name := "X-Forwarded-Host",
     description := "A de facto standard for identifying the original host requested by the client in the Host HTTP request header, since the host name and/or port of the reverse proxy (load balancer) may differ from the origin server handling the request. Superseded by Forwarded header.",
     kind := .field },
   { name := "X-Forwarded-Proto",
     description := "A de facto standard for identifying the originating protocol of an HTTP request, since a reverse proxy (or a load balancer) may communicate with a web server using HTTP even if the request to the reverse proxy is HTTPS. An alternative form of the header (X-ProxyUser-Ip) is used by Google clients talking to Google servers. Superseded by Forwarded header.",
     kind := .field },
   { name := "Front-End-Https",
     description := "Non-standard header field used by Microsoft applications and load-balancers",
     kind := .field },
   { name := "X-Http-Method-Override",
     description := "Requests a web application to override the method specified in the request (typically POST) with the method given in the header field (typically PUT or DELETE). This can be used when a user agent or firewall prevents PUT or DELETE methods from being sent directly (note that this is either a bug in the software component, which ought to be fixed, or an intentional configuration, in which case bypassing it may be the wrong thing to do).",
     kind := .field },
   { name := "X-ATT-DeviceId",
     description := "Allows easier parsing of the MakeModel/Firmware that is usually found in the User-Agent String of AT&T Devices",
     kind := .field },
   { name := "X-Wap-Profile",
     description := "Links to an XML file on the Internet with a full description and details about the device currently connecting. In the example to the right is an XML file for an AT&T Samsung Galaxy S2.",
     kind := .field },
   { name := "Proxy-Connection",
     description := "Implemented as a misunderstanding of the HTTP specifications. Common because of mistakes in implementations of early HTTP versions. Has exactly the same functionality as standard Connection field. Must not be used with HTTP/2.",
     kind := .field },
   { name := "X-UIDH",
     description := "Server-side deep packet insertion of a unique ID identifying customers of Verizon Wireless; also known as \"perma-cookie\" or \"supercookie\"",
     kind := .field },
   { name := "X-Csrf-Token",
     description := "Used to prevent cross-site request forgery. Alternative header names are: X-CSRFToken and X-XSRF-TOKEN",
     kind := .field },
   { name := "X-Request-ID",
     description := "Correlates HTTP requests between a client and server.",
     kind := .field },
   { name := "X-Correlation-ID",
     description := "Correlates HTTP requests between a client and server.",
     kind := .field },
   { name := "Save-Data",
     description := "The Save-Data client hint request header available in Chrome, Opera, and Yandex browsers lets developers deliver lighter, faster applications to users who opt-in to data saving mode in their browser.",
     kind := .field }]

/-- The MQTT field table pushed by `getRequestHeaders` when
`httpyac.utils.isMQTTRequest` accepts the request. -/
def mqttHeaderTable : List HttpCompletionItem :=
  [{ name := "username",
     description := "the username required by your broker",
     kind := .field },
   { name := "password",
     description := "the password required by your broker",
     kind := .field },
   { name := "clean",
     description := "true, set to false to receive QoS 1 and 2 messages while offline",
     kind := .field },
   { name := "keepalive",
     description := "10 seconds, set to 0 to disable",
     kind := .field },
   { name := "QoS",
     description := "the QoS used for subscribe or publish",
     kind := .field },
   { name := "retain",
     description := "the retain flat used for publish",
     kind := .field },
   { name := "subscribe",
     description := "topics to subscribe to",
     kind := .field },
   { name := "publish",
     description := "topics to publish to",
     kind := .field },
   { name := "topic",
     description := "topic to subscribe and publish to",
     kind := .field }]

/-- The EventSource field table pushed by `getRequestHeaders` when
`httpyac.utils.isEventSourceRequest` accepts the request. -/
def eventSourceHeaderTable : List HttpCompletionItem :=
  [{ name := "Event",
     description := "Server Sent Events to add listener",
     kind := .field }]

/-- The gRPC field table pushed by `getRequestHeaders` when
`httpyac.utils.isGrpcRequest` accepts the request. -/
def grpcHeaderTable : List HttpCompletionItem :=
  [{ name := "ChannelCredentials",
     description := "Channel credentials, which are attached to a Channel, such as SSL credentials.",
     kind := .field }]

/-- `getRequestHeaders`: when in request-line context and the region has a
parsed request, the table of its variant is filtered by
`textLine.length === 0 || obj.name.toLowerCase().startsWith(textLine.trim().toLowerCase())`;
otherwise the empty list is returned. -/
def getRequestHeaders (textLine : String) (isInReqLine : Bool)
    (httpRegion : Option HttpRegion) : List HttpCompletionItem :=
  match httpRegion with
  | some region =>
    if isInReqLine then
      match region.request with
      | some kind =>
        let result : List HttpCompletionItem :=
          match kind with
          | .http => httpHeaderTable
          | .mqtt => mqttHeaderTable
          | .eventSource => eventSourceHeaderTable
          | .grpc => grpcHeaderTable
          | .unknown => []
        result.filter fun obj =>
          jsLength textLine == 0 ||
            jsStartsWith (jsToLower obj.name) (jsToLower (jsTrim textLine))
      | none => []
    else []
  | none => []

/-- `isInRequestLine`: the symbol children of the region are searched for the
first child whose `startLine` equals `line - 1`; the context holds when that
child has kind `requestLine` or `requestHeader`. -/
def isInRequestLine (httpRegion : HttpRegion) (line : Int) : Bool :=
  match httpRegion.symbol.children with
  | some children =>
    match children.find? (fun obj => obj.startLine == line - 1) with
    | some preLine =>
      preLine.kind == HttpSymbolKind.requestLine ||
        preLine.kind == HttpSymbolKind.requestHeader
    | none => false
  | none => false

/-- The candidate built from one entry of the `mime-types` mapping in
`getMimetypes` (name is the content-type value, description the extension). -/
def mimeTypeItem (entry : String × String) : HttpCompletionItem :=
  { name := entry.2, description := entry.1, kind := .value }

/-- The synthetic `application/x-www-form-urlencoded` candidate pushed at the
end of `getMimetypes`. -/
def urlencodedItem : HttpCompletionItem :=
  { name := "application/x-www-form-urlencoded",
    description := "application/x-www-form-urlencoded",
    kind := .value }

/-- `getMimetypes`, parametric in the external `mime-types` mapping
(`Object.entries(types)` as a list of extension, content-type pairs). -/
def getMimetypes (types : List (String × String)) (line : String)
    (isInReqLine : Bool) : List HttpCompletionItem :=
  if isInReqLine && jsIncludes (jsToLower line) "content-type" then
    (types.map mimeTypeItem) ++ [urlencodedItem]
  else []

/-- The authorization-scheme table returned by `getAuthorization`. -/
def authorizationTable : List HttpCompletionItem :=
  [{ name := "Basic",
     description := "Basic Authentication",
     kind := .value },
   { name := "Digest",
     description := "Digest Authentication",
     kind := .value },
   { name := "AWS",
     description := "AWS Signnature v4",
     kind := .value },
   { name := "OAuth2",
     description := "OAuth2",
     kind := .value },
   { name := "OpenId",
     description := "OpenId",
     kind := .value },
   { name := "Bearer",
     description := "Bearer Authentication",
     kind := .value }]

/-- `getAuthorization`: the fixed scheme list when in request-line context and
the line mentions authorization, otherwise empty. -/
def getAuthorization (line : String) (isInReqLine : Bool) : List HttpCompletionItem :=
  if isInReqLine && jsIncludes (jsToLower line) "authorization" then
    authorizationTable
  else []

/-- The typed remainder computed by `getMetaData`:
`textLine.trim().slice(1).trim()`. -/
def metaLine (textLine : String) : String := jsTrim (jsSlice (jsTrim textLine) 1)

/-- The candidates contributed by one `knownMetaData` entry inside the loop of
`getMetaData`, for the computed remainder `line`. -/
def metaDirectiveItems (line : String) (obj : MetaDirective) : List HttpCompletionItem :=
  let itemName := "@" ++ obj.name
  if jsLength line == 0 || jsStartsWith itemName line then
    match obj.completions with
    | some completions =>
      completions.map fun completion =>
        { name := itemName ++ " " ++ completion
          description := obj.description
          kind := .field
          text := some (jsSlice (itemName ++ " " ++ completion) (jsLength line)) }
    | none =>
      [{ name := itemName
         description := obj.description
         kind := .field
         text := some (jsSlice itemName (jsLength line)) }]
  else []

/-- `getMetaData`, parametric in the external `httpyac.parser.knownMetaData`
table. -/
def getMetaData (knownMetaData : List MetaDirective) (textLine : String)
    (isInReqLine : Bool) : List HttpCompletionItem :=
  if jsStartsWith (jsTrim textLine) "#" && !isInReqLine then
    (knownMetaData.map (metaDirectiveItems (metaLine textLine))).flatten
  else []

/-- JavaScript truthiness of `metaData.name` (absent and empty are falsy). -/
def truthyName (o : Option String) : Bool :=
  match o with
  | some s => !(s == "")
  | none => false

/-- The candidate built from one region by `getRefName`
(`name: httpRegion.metaData.name || ''`). -/
def refNameItem (httpRegion : HttpRegion) : HttpCompletionItem :=
  { name := httpRegion.metaDataName.getD ""
    description := "httpRegion name"
    kind := .reference }

/-- `getRefName`: under a `#` line mentioning `ref`, one candidate per region
whose `metaData.name` is truthy. -/
def getRefName (line : String) (httpFile : Option HttpFile) : List HttpCompletionItem :=
  match httpFile with
  | some file =>
    if jsStartsWith line "#" && jsIncludes (jsToLower line) "ref" then
      (file.httpRegions.filter fun obj => truthyName obj.metaDataName).map refNameItem
    else []
  | none => []

/-- The final mapping of `provideCompletionItems`
(`item.insertText = obj.text || obj.name`, with JavaScript truthiness: an
empty `text` string falls back to the name). -/
def toCompletionItem (obj : HttpCompletionItem) : CompletionItem :=
  { label := obj.name
    detail := obj.description
    insertText :=
      match obj.text with
      | some t => if jsLength t == 0 then obj.name else t
      | none => obj.name
    kind := obj.kind }

/-- The enclosing region
(`httpFile.httpRegions.find(obj => obj.symbol.startLine <= position.line && position.line <= obj.symbol.endLine)`). -/
def findHttpRegion (httpFile : Option HttpFile) (posLine : Int) : Option HttpRegion :=
  httpFile.bind fun file =>
    file.httpRegions.find? fun obj =>
      decide (obj.symbol.startLine ≤ posLine) && decide (posLine ≤ obj.symbol.endLine)

/-- `!!httpRegion && this.isInRequestLine(httpRegion, position.line)`. -/
def regionIsInRequestLine (httpFile : Option HttpFile) (posLine : Int) : Bool :=
  match findHttpRegion httpFile posLine with
  | some region => isInRequestLine region posLine
  | none => false

/-- `provideCompletionItems`, parametric in the two external tables
(`knownMetaData` and the `mime-types` mapping); `lineText` is the document
text of the cursor line up to the cursor, `posLine` the cursor line. -/
def provideCompletionItems (knownMetaData : List MetaDirective)
    (types : List (String × String)) (lineText : String) (posLine : Int)
    (httpFile : Option HttpFile) : List CompletionItem :=
  let textLine := jsTrim lineText
  let httpRegion := findHttpRegion httpFile posLine
  let isInReq := regionIsInRequestLine httpFile posLine
  (getRequstMethodCompletionItems textLine
    ++ getRequestHeaders textLine isInReq httpRegion
    ++ getMimetypes types textLine isInReq
    ++ getAuthorization textLine isInReq
    ++ getMetaData knownMetaData textLine isInReq
    ++ getRefName textLine httpFile).map toCompletionItem

/-- Modelled from the spec: the case-insensitive, start-anchored match of the
Prefix Filter section (compared with the filters the source actually uses). -/
def ciStartsWith (name typed : String) : Bool :=
  jsStartsWith (jsToLower name) (jsToLower typed)

/-- Modelled from the spec: `filter(S, p)` of the Prefix Filter section —
the subset of `S` whose name starts with `p` case-insensitively, the whole of
`S` for empty `p`. -/
def specPrefixFilter (candidates : List HttpCompletionItem) (typed : String) :
    List HttpCompletionItem :=
  if jsLength typed == 0 then candidates
  else candidates.filter fun obj => ciStartsWith obj.name typed

/-- Modelled from the spec: the header-context classifier of claim C7 — the
symbol tree contains (anywhere) a child at the preceding line whose kind is
`requestLine` or `requestHeader`. -/
def specHeaderContext (httpRegion : HttpRegion) (line : Int) : Bool :=
  match httpRegion.symbol.children with
  | some children =>
    children.any fun c =>
      c.startLine == line - 1 &&
        (c.kind == HttpSymbolKind.requestLine || c.kind == HttpSymbolKind.requestHeader)
  | none => false

lemma string_eq_of_data {a b : String} (h : a.data = b.data) : a = b := by
  cases a; cases b; subst h; rfl

lemma jsStartsWith_iff {s p : String} : jsStartsWith s p = true ↔ p.data <+: s.data := by
  simp [jsStartsWith, List.isPrefixOf_iff_prefix]

lemma jsStartsWith_eq_append {s p : String} (h : jsStartsWith s p = true) :
    s = p ++ jsSlice s (jsLength p) := by
  apply string_eq_of_data
  have h2 := (List.prefix_iff_eq_append).mp (jsStartsWith_iff.mp h)
  show s.data = p.data ++ s.data.drop (jsLength p)
  rw [jsLength]
  exact h2.symm

lemma filter_len_or (S : List HttpCompletionItem) (f : HttpCompletionItem → Bool)
    (p : String) :
    (S.filter fun obj => jsLength p == 0 || f obj) =
      if jsLength p == 0 then S else S.filter f := by
  cases h : (jsLength p == 0) <;> simp [h]

lemma isPrefixOf_cons_false {a : Char} (l1 : List Char) {l2 : List Char}
    (h : l2.head? ≠ some a) : (a :: l1).isPrefixOf l2 = false := by
  cases l2 with
  | nil => rfl
  | cons b t =>
    have hne : b ≠ a := by simpa using h
    have hab : (a == b) = false := by
      simp only [beq_eq_false_iff_ne]
      exact fun hh => hne hh.symm
    simp [List.isPrefixOf, hab]

lemma startsWith_hash {t : String} (h : jsStartsWith t "#" = true) :
    ∃ rest, t.data = '#' :: rest := by
  obtain ⟨r, hr⟩ := jsStartsWith_iff.mp h
  exact ⟨r, hr.symm⟩

lemma jsStartsWith_false_of_head {s p : String} {c : Char} {rest : List Char}
    (hp : p.data = c :: rest) (hhead : s.data.head? ≠ some c) :
    jsStartsWith s p = false := by
  unfold jsStartsWith
  rw [hp]
  exact isPrefixOf_cons_false rest hhead

lemma dropWhile_append_singleton {p : Char → Bool} {a : Char} (ha : p a = false)
    (l : List Char) : ∃ l2, (l ++ [a]).dropWhile p = l2 ++ [a] := by
  induction l with
  | nil => exact ⟨[], by simp [List.dropWhile, ha]⟩
  | cons c t ih =>
    cases hc : p c with
    | false => exact ⟨c :: t, by simp [List.dropWhile_cons, hc]⟩
    | true =>
      obtain ⟨l2, hl2⟩ := ih
      exact ⟨l2, by simp [List.dropWhile_cons, hc, hl2]⟩

lemma jsTrim_data_head {t : String} {c : Char} {rest : List Char}
    (hd : t.data = c :: rest) (hc : isWs c = false) :
    ∃ rest2, (jsTrim t).data = c :: rest2 := by
  show ∃ rest2, ((t.data.dropWhile isWs).reverse.dropWhile isWs).reverse = c :: rest2
  rw [hd]
  have hdw : (c :: rest).dropWhile isWs = c :: rest := by
    simp [List.dropWhile_cons, hc]
  rw [hdw, List.reverse_cons]
  obtain ⟨l2, hl2⟩ := dropWhile_append_singleton hc rest.reverse
  rw [hl2]
  exact ⟨l2.reverse, by simp⟩

lemma jsLength_ne_zero {t : String} {c : Char} {rest : List Char}
    (hd : t.data = c :: rest) : (jsLength t == 0) = false := by
  simp [jsLength, hd]

/-- A region whose parsed request is an HTTP request, with a request line on
line 0; used to instantiate general theorems. -/
def sampleHttpRegion : HttpRegion :=
  { symbol := { startLine := 0, endLine := 5,
                children := some [{ startLine := 0, kind := .requestLine }] }
    request := some .http }

/-- A file made of the single region `sampleHttpRegion`. -/
def sampleHttpFile : HttpFile := { httpRegions := [sampleHttpRegion] }

/-- Claim C1, counterexample: the method-keyword filter lowercases only the
candidate name and not the typed line, so for the typed prefix G it returns
nothing although GET and GRPC match case-insensitively; it therefore differs
from the case-insensitive filter of the spec. -/
theorem method_filter_case_sensitive_cex :
    getRequstMethodCompletionItems "G" ≠ specPrefixFilter methodTable "G" ∧
    getRequstMethodCompletionItems "G" = [] ∧
    (specPrefixFilter methodTable "G").map (fun c => c.name) = ["GET", "GRPC"] := by
  decide

/-- A region whose parsed request is an MQTT request, with a request line on
line 0; used to instantiate general theorems. -/
def sampleMqttRegion : HttpRegion :=
  { symbol := { startLine := 0, endLine := 5,
                children := some [{ startLine := 0, kind := .requestLine }] }
    request := some .mqtt }

/-- Claim C1, amended: for every candidate table of the header-field stream —
the HTTP, MQTT, EventSource and gRPC tables alike — the stream is exactly the
case-insensitive anchored prefix filter of the spec (for the already-trimmed
line the provider passes), and empty input returns the table unchanged; the
method-keyword stream agrees with the case-insensitive filter only when the
typed line is already lowercase. -/
theorem prefix_filter_amended (p : String) (r : HttpRegion)
    (htrim : jsTrim p = p) :
    (jsToLower p = p →
      getRequstMethodCompletionItems p = specPrefixFilter methodTable p) ∧
    (r.request = some RequestKind.http →
      getRequestHeaders p true (some r) = specPrefixFilter httpHeaderTable p) ∧
    (r.request = some RequestKind.mqtt →
      getRequestHeaders p true (some r) = specPrefixFilter mqttHeaderTable p) ∧
    (r.request = some RequestKind.eventSource →
      getRequestHeaders p true (some r) = specPrefixFilter eventSourceHeaderTable p) ∧
    (r.request = some RequestKind.grpc →
      getRequestHeaders p true (some r) = specPrefixFilter grpcHeaderTable p) := by
  refine ⟨?_, ?_, ?_, ?_, ?_⟩
  · intro hlow
    unfold getRequstMethodCompletionItems
    rw [filter_len_or]
    simp only [specPrefixFilter, ciStartsWith, hlow]
  all_goals
    intro hreq
    simp only [getRequestHeaders, hreq, htrim]
    rw [filter_len_or]
    simp only [specPrefixFilter, ciStartsWith]
    simp

/-- Witness for `prefix_filter_amended` at the typed line acc for the method
stream and the HTTP table, and at the typed line q for the MQTT table. -/
theorem prefix_filter_amended_witness :
    (jsTrim "acc" = "acc" ∧ jsToLower "acc" = "acc" ∧ jsTrim "q" = "q" ∧
      sampleHttpRegion.request = some RequestKind.http ∧
      sampleMqttRegion.request = some RequestKind.mqtt) ∧
    getRequstMethodCompletionItems "acc" = specPrefixFilter methodTable "acc" ∧
    getRequestHeaders "acc" true (some sampleHttpRegion) =
      specPrefixFilter httpHeaderTable "acc" ∧
    getRequestHeaders "q" true (some sampleMqttRegion) =
      specPrefixFilter mqttHeaderTable "q" :=
  ⟨⟨by decide, by decide, by decide, rfl, rfl⟩,
    (prefix_filter_amended "acc" sampleHttpRegion (by decide)).1 (by decide),
    (prefix_filter_amended "acc" sampleHttpRegion (by decide)).2.1 rfl,
    (prefix_filter_amended "q" sampleMqttRegion (by decide)).2.2.1 rfl⟩

/-- Claim C3: before prefix filtering (empty typed line), the header-field
candidates are exactly the table of the request variant of the enclosing
region — the 56-entry HTTP table, the nine MQTT broker-session fields, the
single Event field, the single ChannelCredentials field — and the empty
sequence for an absent or unrecognized request, for every typed line. -/
theorem header_table_by_variant (r : HttpRegion) (t : String) :
    (r.request = some RequestKind.http →
      getRequestHeaders "" true (some r) = httpHeaderTable) ∧
    (r.request = some RequestKind.mqtt →
      getRequestHeaders "" true (some r) = mqttHeaderTable) ∧
    (r.request = some RequestKind.eventSource →
      getRequestHeaders "" true (some r) = eventSourceHeaderTable) ∧
    (r.request = some RequestKind.grpc →
      getRequestHeaders "" true (some r) = grpcHeaderTable) ∧
    (r.request = none → getRequestHeaders t true (some r) = []) ∧
    (r.request = some RequestKind.unknown → getRequestHeaders t true (some r) = []) ∧
    httpHeaderTable.length = 56 ∧
    mqttHeaderTable.map (fun c => c.name) =
      ["username", "password", "clean", "keepalive", "QoS", "retain",
       "subscribe", "publish", "topic"] ∧
    eventSourceHeaderTable.map (fun c => c.name) = ["Event"] ∧
    grpcHeaderTable.map (fun c => c.name) = ["ChannelCredentials"] := by
  have h0 : (jsLength "" == 0) = true := rfl
  refine ⟨?_, ?_, ?_, ?_, ?_, ?_, rfl, by decide, by decide, by decide⟩ <;>
    intro h <;> simp only [getRequestHeaders, h] <;>
    first
      | (rw [filter_len_or]; simp [h0])
      | simp

/-- Witness for `header_table_by_variant` at an HTTP region. -/
theorem header_table_by_variant_witness :
    sampleHttpRegion.request = some RequestKind.http ∧
    getRequestHeaders "" true (some sampleHttpRegion) = httpHeaderTable :=
  ⟨rfl, (header_table_by_variant sampleHttpRegion "").1 rfl⟩

/-- Claim C4: the returned sequence is the concatenation, in this fixed order,
of the method, header, mime-type, authorization, meta-directive and reference
streams (each mapped to its presentation item). -/
theorem provide_stream_concatenation (kmd : List MetaDirective)
    (types : List (String × String)) (lineText : String) (posLine : Int)
    (f : Option HttpFile) :
    provideCompletionItems kmd types lineText posLine f =
      (getRequstMethodCompletionItems (jsTrim lineText)).map toCompletionItem
      ++ (getRequestHeaders (jsTrim lineText) (regionIsInRequestLine f posLine)
            (findHttpRegion f posLine)).map toCompletionItem
      ++ (getMimetypes types (jsTrim lineText)
            (regionIsInRequestLine f posLine)).map toCompletionItem
      ++ (getAuthorization (jsTrim lineText)
            (regionIsInRequestLine f posLine)).map toCompletionItem
      ++ (getMetaData kmd (jsTrim lineText)
            (regionIsInRequestLine f posLine)).map toCompletionItem
      ++ (getRefName (jsTrim lineText) f).map toCompletionItem := by
  simp [provideCompletionItems]

/-- Claim C5: on a blank line with no document model the provider returns
exactly the full 13-entry method table in declared order (GET, HEAD, POST,
PUT, DELETE, CONNECT, OPTIONS, TRACE, PATCH, MQTT, WSS, SSE, GRPC) and no
candidate of any other stream; the embedding is total, so no exception is
possible. -/
theorem empty_line_no_model_methods (kmd : List MetaDirective)
    (types : List (String × String)) (lineText : String) (posLine : Int)
    (h : jsTrim lineText = "") :
    provideCompletionItems kmd types lineText posLine none =
      methodTable.map toCompletionItem ∧
    methodTable.map (fun c => c.name) =
      ["GET", "HEAD", "POST", "PUT", "DELETE", "CONNECT", "OPTIONS", "TRACE",
       "PATCH", "MQTT", "WSS", "SSE", "GRPC"] ∧
    methodTable.length = 13 := by
  refine ⟨?_, by decide, rfl⟩
  have hmeta : jsStartsWith (jsTrim "") "#" = false := by decide
  have h0 : (jsLength "" == 0) = true := rfl
  simp [provideCompletionItems, h, getRequstMethodCompletionItems, h0,
        getRequestHeaders, getMimetypes, getAuthorization, getMetaData, hmeta,
        getRefName, findHttpRegion, regionIsInRequestLine]

/-- Witness for `empty_line_no_model_methods` on a line of spaces. -/
theorem empty_line_no_model_methods_witness :
    jsTrim "   " = "" ∧
    (provideCompletionItems [] [] "   " 7 none = methodTable.map toCompletionItem ∧
      methodTable.map (fun c => c.name) =
        ["GET", "HEAD", "POST", "PUT", "DELETE", "CONNECT", "OPTIONS", "TRACE",
         "PATCH", "MQTT", "WSS", "SSE", "GRPC"] ∧
      methodTable.length = 13) :=
  ⟨by decide, empty_line_no_model_methods [] [] "   " 7 (by decide)⟩

/-- A region named foo (line range 0..0, no request, no children). -/
def fooRegion : HttpRegion :=
  { symbol := { startLine := 0, endLine := 0 }, metaDataName := some "foo" }

/-- A file with two regions both named foo. -/
def twoFooFile : HttpFile :=
  { httpRegions :=
      [fooRegion,
       { symbol := { startLine := 1, endLine := 1 }, metaDataName := some "foo" }] }

lemma refNames_comm (l : List HttpRegion) :
    ((l.filter fun r => truthyName r.metaDataName).map refNameItem).map
        (fun c => c.name) =
      (l.map fun r => r.metaDataName.getD "").filter (fun s => !(s == "")) := by
  rw [List.map_map]
  induction l with
  | nil => rfl
  | cons r t ih =>
    cases hm : r.metaDataName with
    | none =>
      have h1 : truthyName none = false := rfl
      simpa [List.filter_cons, h1, hm] using ih
    | some s =>
      by_cases hs : s = ""
      · subst hs
        have h1 : truthyName (some "") = false := rfl
        simpa [List.filter_cons, h1, hm] using ih
      · have h1 : truthyName (some s) = true := by
          simp [truthyName, hs]
        simpa [List.filter_cons, h1, hm, refNameItem, hs] using ih

/-- Claim C6: under a reference-comment line the resolver yields, in region
order, one Reference candidate per region with a non-empty symbolic name
(name = the symbolic name, fixed description), duplicates preserved — for a
document with two regions named foo, two candidates named foo come back. -/
theorem ref_name_resolver (f : HttpFile) (line : String)
    (h1 : jsStartsWith line "#" = true)
    (h2 : jsIncludes (jsToLower line) "ref" = true) :
    ((getRefName line (some f)).map (fun c => c.name) =
      (f.httpRegions.map fun r => r.metaDataName.getD "").filter
        (fun s => !(s == ""))) ∧
    (∀ c ∈ getRefName line (some f),
      c.description = "httpRegion name" ∧ c.kind = CompletionItemKind.reference) ∧
    getRefName "# ref foo" (some twoFooFile) =
      [{ name := "foo", description := "httpRegion name", kind := .reference },
       { name := "foo", description := "httpRegion name", kind := .reference }] := by
  refine ⟨?_, ?_, by decide⟩
  · simp only [getRefName, h1, h2]
    simpa using refNames_comm f.httpRegions
  · intro c hc
    simp only [getRefName, h1, h2, Bool.and_self, if_true] at hc
    obtain ⟨r, hr, hcr⟩ := List.mem_map.mp hc
    subst hcr
    exact ⟨rfl, rfl⟩

/-- Witness for `ref_name_resolver` on the duplicate-name file. -/
theorem ref_name_resolver_witness :
    (jsStartsWith "# ref foo" "#" = true ∧
      jsIncludes (jsToLower "# ref foo") "ref" = true) ∧
    ((getRefName "# ref foo" (some twoFooFile)).map (fun c => c.name) =
      (twoFooFile.httpRegions.map fun r => r.metaDataName.getD "").filter
        (fun s => !(s == ""))) :=
  ⟨⟨by decide, by decide⟩,
    (ref_name_resolver twoFooFile "# ref foo" (by decide) (by decide)).1⟩

/-- Claim C9: in header context, a line mentioning content-type yields one
candidate per entry of the registered extension mapping (name = content-type
value, description = extension key) plus the synthetic
application/x-www-form-urlencoded candidate, which is present for every
mapping. -/
theorem mimetype_table_content (types : List (String × String)) (line : String)
    (h : jsIncludes (jsToLower line) "content-type" = true) :
    getMimetypes types line true = types.map mimeTypeItem ++ [urlencodedItem] ∧
    urlencodedItem ∈ getMimetypes types line true ∧
    (getMimetypes types line true).length = types.length + 1 := by
  have he : getMimetypes types line true = types.map mimeTypeItem ++ [urlencodedItem] := by
    simp [getMimetypes, h]
  refine ⟨he, ?_, ?_⟩
  · rw [he]
    simp
  · rw [he]
    simp

/-- Witness for `mimetype_table_content` with a one-entry mapping. -/
theorem mimetype_table_content_witness :
    jsIncludes (jsToLower "Content-Type: ") "content-type" = true ∧
    (getMimetypes [("json", "application/json")] "Content-Type: " true =
        [("json", "application/json")].map mimeTypeItem ++ [urlencodedItem] ∧
      urlencodedItem ∈ getMimetypes [("json", "application/json")] "Content-Type: " true ∧
      (getMimetypes [("json", "application/json")] "Content-Type: " true).length =
        [("json", "application/json")].length + 1) :=
  ⟨by decide, mimetype_table_content [("json", "application/json")] "Content-Type: " (by decide)⟩

/-- Claim C8, counterexample: the mime-type stream is not prefix-filtered —
for the line content-type: x in header context, the synthetic urlencoded
candidate is returned although its name does not start with the typed line
under case-insensitive comparison. -/
theorem unfiltered_streams_cex :
    provideCompletionItems [] [] "content-type: x" 1 (some sampleHttpFile) =
      [toCompletionItem urlencodedItem] ∧
    ciStartsWith urlencodedItem.name (jsTrim "content-type: x") = false := by
  decide

/-- Claim C8, amended: no generic prefix filter exists for the mime-type,
authorization and reference streams — whenever their trigger conditions hold,
their output does not depend on the typed line at all; only the method and
header streams filter by the typed text. -/
theorem unfiltered_streams_amended :
    (∀ (types : List (String × String)) (l1 l2 : String),
      jsIncludes (jsToLower l1) "content-type" = true →
      jsIncludes (jsToLower l2) "content-type" = true →
      getMimetypes types l1 true = getMimetypes types l2 true) ∧
    (∀ l1 l2 : String,
      jsIncludes (jsToLower l1) "authorization" = true →
      jsIncludes (jsToLower l2) "authorization" = true →
      getAuthorization l1 true = getAuthorization l2 true) ∧
    (∀ (f : HttpFile) (l1 l2 : String),
      jsStartsWith l1 "#" = true → jsIncludes (jsToLower l1) "ref" = true →
      jsStartsWith l2 "#" = true → jsIncludes (jsToLower l2) "ref" = true →
      getRefName l1 (some f) = getRefName l2 (some f)) := by
  refine ⟨?_, ?_, ?_⟩
  · intro types l1 l2 h1 h2
    simp [getMimetypes, h1, h2]
  · intro l1 l2 h1 h2
    simp [getAuthorization, h1, h2]
  · intro f l1 l2 h1 h2 h3 h4
    simp [getRefName, h1, h2, h3, h4]

/-- Witness for `unfiltered_streams_amended`: two different typed lines give
the same mime-type candidates. -/
theorem unfiltered_streams_amended_witness :
    (jsIncludes (jsToLower "content-type") "content-type" = true ∧
      jsIncludes (jsToLower "CONTENT-TYPE: app") "content-type" = true) ∧
    getMimetypes [] "content-type" true = getMimetypes [] "CONTENT-TYPE: app" true :=
  ⟨⟨by decide, by decide⟩,
    unfiltered_streams_amended.1 [] "content-type" "CONTENT-TYPE: app"
      (by decide) (by decide)⟩

/-- A meta-directive table with a single directive ref carrying one
sub-completion, as the reference directive of the external grammar. -/
def sampleDirectives : List MetaDirective :=
  [{ name := "ref", description := "reference another region",
     completions := some ["name"] }]

/-- Claim C2, counterexample: the keep test of `getMetaData` compares the
typed remainder against the directive name alone, not the full candidate
name, so for the line whose remainder reaches into the sub-completion
nothing is returned although the full name matches; and for the line whose
remainder is ref, nothing is returned either although the candidate name
starts with at-ref, because every candidate name begins with the at sign
while the remainder does not. -/
theorem metaData_directive_filter_cex :
    getMetaData sampleDirectives "#@ref n" false = [] ∧
    jsStartsWith "@ref name" "@ref n" = true ∧
    getMetaData sampleDirectives "#ref" false = [] ∧
    jsStartsWith "@ref name" "@ref" = true := by
  decide

/-- Claim C2, amended: every returned meta-directive candidate still has the
typed remainder as a prefix of its name, and its insert text is exactly the
suffix of the name beyond the remainder (name = remainder ++ text); a
directive contributes its candidates (one per sub-completion) exactly when
the remainder is a prefix of the at-prefixed directive name alone; and for
the line hash-ref the remainder ref matches no directive, so no candidate is
returned for any table. -/
theorem metaData_amended :
    (∀ (kmd : List MetaDirective) (textLine : String) (item : HttpCompletionItem),
      item ∈ getMetaData kmd textLine false →
      jsLength (metaLine textLine) = 0 ∨
        (jsStartsWith item.name (metaLine textLine) = true ∧
          item.name = metaLine textLine ++ item.text.getD "")) ∧
    (∀ (kmd : List MetaDirective) (textLine : String),
      jsStartsWith (jsTrim textLine) "#" = true →
      (getMetaData kmd textLine false).length =
        ((kmd.filter fun obj =>
            jsLength (metaLine textLine) == 0 ||
              jsStartsWith ("@" ++ obj.name) (metaLine textLine)).map
          fun obj =>
            match obj.completions with
            | some cs => cs.length
            | none => 1).sum) ∧
    (∀ kmd : List MetaDirective, getMetaData kmd "#ref" false = []) := by
  refine ⟨?_, ?_, ?_⟩
  · intro kmd textLine item hmem
    unfold getMetaData at hmem
    split at hmem
    case isFalse => exact absurd hmem (List.not_mem_nil item)
    case isTrue hcond =>
      obtain ⟨lst, hlst, hitem⟩ := List.mem_flatten.mp hmem
      obtain ⟨obj, hobj, rfl⟩ := List.mem_map.mp hlst
      simp only [metaDirectiveItems] at hitem
      split at hitem
      case isFalse => exact absurd hitem (List.not_mem_nil item)
      case isTrue hkeep =>
        cases h0 : (jsLength (metaLine textLine) == 0) with
        | true => exact Or.inl (by simpa using h0)
        | false =>
          have hsw : jsStartsWith ("@" ++ obj.name) (metaLine textLine) = true := by
            rcases Bool.or_eq_true_iff.mp hkeep with h | h
            · rw [h0] at h
              exact absurd h (by simp)
            · exact h
          refine Or.inr ?_
          cases hc : obj.completions with
          | some cs =>
            rw [hc] at hitem
            obtain ⟨completion, hcomp, rfl⟩ := List.mem_map.mp hitem
            have hfull : jsStartsWith ("@" ++ obj.name ++ " " ++ completion)
                (metaLine textLine) = true := by
              apply jsStartsWith_iff.mpr
              have h1 := jsStartsWith_iff.mp hsw
              have h2 : ("@" ++ obj.name).data <+:
                  ("@" ++ obj.name ++ " " ++ completion).data := by
                show ("@" ++ obj.name).data <+:
                  (("@" ++ obj.name).data ++ " ".data ++ completion.data)
                rw [List.append_assoc]
                exact List.prefix_append _ _
              exact h1.trans h2
            exact ⟨hfull, jsStartsWith_eq_append hfull⟩
          | none =>
            rw [hc] at hitem
            simp only [List.mem_singleton] at hitem
            subst hitem
            exact ⟨hsw, jsStartsWith_eq_append hsw⟩
  · intro kmd textLine hstart
    unfold getMetaData
    have hcond : (jsStartsWith (jsTrim textLine) "#" && !false) = true := by
      simp [hstart]
    rw [if_pos hcond]
    induction kmd with
    | nil => rfl
    | cons obj rest ih =>
      simp only [List.map_cons, List.flatten_cons, List.length_append, ih,
        List.filter_cons]
      by_cases hkeep : (jsLength (metaLine textLine) == 0 ||
          jsStartsWith ("@" ++ obj.name) (metaLine textLine)) = true
      · rw [if_pos hkeep]
        simp only [List.map_cons, List.sum_cons]
        congr 1
        cases hc : obj.completions <;> simp [metaDirectiveItems, hkeep, hc]
      · rw [if_neg hkeep]
        have hz : metaDirectiveItems (metaLine textLine) obj = [] := by
          simp only [metaDirectiveItems]
          rw [if_neg hkeep]
        rw [hz]
        simp
  · intro kmd
    unfold getMetaData
    have hcond : (jsStartsWith (jsTrim "#ref") "#" && !false) = true := by decide
    rw [if_pos hcond]
    rw [List.flatten_eq_nil_iff]
    intro x hx
    obtain ⟨obj, hobj, rfl⟩ := List.mem_map.mp hx
    have hline : metaLine "#ref" = "ref" := by decide
    rw [hline]
    simp only [metaDirectiveItems]
    rw [if_neg]
    intro hkeep
    have h1 : (jsLength "ref" == 0) = false := by decide
    have h2 : jsStartsWith ("@" ++ obj.name) "ref" = false := by
      have hp : ("ref" : String).data = 'r' :: ['e', 'f'] := rfl
      apply jsStartsWith_false_of_head hp
      show ('@' :: obj.name.data).head? ≠ some 'r'
      simp
    rw [h1, h2] at hkeep
    exact absurd hkeep (by simp)

/-- Witness for `metaData_amended`: the candidate returned for the partially
typed directive line has the typed remainder as a prefix and an insert text
completing it. -/
theorem metaData_amended_witness :
    ({ name := "@ref name", description := "reference another region",
       text := some "f name", kind := CompletionItemKind.field } : HttpCompletionItem) ∈
        getMetaData sampleDirectives "#@re" false ∧
    (jsLength (metaLine "#@re") = 0 ∨
      (jsStartsWith "@ref name" (metaLine "#@re") = true ∧
        ("@ref name" : String) = metaLine "#@re" ++ (some ("f name" : String)).getD "")) :=
  ⟨by decide,
    metaData_amended.1 sampleDirectives "#@re"
      { name := "@ref name", description := "reference another region",
        text := some "f name", kind := CompletionItemKind.field } (by decide)⟩

/-- A region whose symbol tree has two children on the same line: the first
of kind other, the second of kind requestLine. -/
def ambiguousRegion : HttpRegion :=
  { symbol := { startLine := 0, endLine := 10,
                children := some [{ startLine := 4, kind := .other },
                                  { startLine := 4, kind := .requestLine }] }
    request := some .http }

/-- Claim C7, counterexample: the classifier inspects only the first child
whose startLine equals the preceding line — with two children on that line,
the first of kind other and the second of kind requestLine, header context is
denied although the symbol tree does contain a child of the required kind at
that line. -/
theorem header_context_first_child_cex :
    isInRequestLine ambiguousRegion 5 = false ∧
    specHeaderContext ambiguousRegion 5 = true := by
  decide

lemma methodTable_no_hash :
    ∀ o ∈ methodTable, (jsToLower o.name).data.head? ≠ some '#' := by
  decide

lemma httpHeaderTable_no_hash :
    ∀ o ∈ httpHeaderTable, (jsToLower o.name).data.head? ≠ some '#' := by
  decide

lemma mqttHeaderTable_no_hash :
    ∀ o ∈ mqttHeaderTable, (jsToLower o.name).data.head? ≠ some '#' := by
  decide

lemma eventSourceHeaderTable_no_hash :
    ∀ o ∈ eventSourceHeaderTable, (jsToLower o.name).data.head? ≠ some '#' := by
  decide

lemma grpcHeaderTable_no_hash :
    ∀ o ∈ grpcHeaderTable, (jsToLower o.name).data.head? ≠ some '#' := by
  decide

lemma methods_empty_on_hash {textLine : String}
    (h : jsStartsWith textLine "#" = true) :
    getRequstMethodCompletionItems textLine = [] := by
  obtain ⟨rest, hr⟩ := startsWith_hash h
  unfold getRequstMethodCompletionItems
  rw [List.filter_eq_nil_iff]
  intro obj hobj
  have hlen := jsLength_ne_zero hr
  have hsw : jsStartsWith (jsToLower obj.name) textLine = false :=
    jsStartsWith_false_of_head hr (methodTable_no_hash obj hobj)
  simp [hlen, hsw]

lemma headers_empty_on_hash {textLine : String}
    (h : jsStartsWith textLine "#" = true) (b : Bool)
    (region : Option HttpRegion) :
    getRequestHeaders textLine b region = [] := by
  obtain ⟨rest, hr⟩ := startsWith_hash h
  obtain ⟨rest2, hr2⟩ := jsTrim_data_head hr (by decide)
  have hlow : (jsToLower (jsTrim textLine)).data = '#' :: rest2.map Char.toLower := by
    show (jsTrim textLine).data.map Char.toLower = _
    rw [hr2]
    rfl
  have hfilter : ∀ S : List HttpCompletionItem,
      (∀ o ∈ S, (jsToLower o.name).data.head? ≠ some '#') →
      (S.filter fun obj =>
        jsLength textLine == 0 ||
          jsStartsWith (jsToLower obj.name) (jsToLower (jsTrim textLine))) = [] := by
    intro S hS
    rw [List.filter_eq_nil_iff]
    intro obj hobj
    have hlen := jsLength_ne_zero hr
    have hsw : jsStartsWith (jsToLower obj.name) (jsToLower (jsTrim textLine)) = false :=
      jsStartsWith_false_of_head hlow (hS obj hobj)
    simp [hlen, hsw]
  unfold getRequestHeaders
  cases region with
  | none => rfl
  | some r =>
    cases b with
    | false => simp
    | true =>
      simp only []
      cases hreq : r.request with
      | none => simp
      | some k =>
        cases k <;> rw [if_pos trivial] <;>
          first
            | exact hfilter httpHeaderTable httpHeaderTable_no_hash
            | exact hfilter mqttHeaderTable mqttHeaderTable_no_hash
            | exact hfilter eventSourceHeaderTable eventSourceHeaderTable_no_hash
            | exact hfilter grpcHeaderTable grpcHeaderTable_no_hash
            | simp

/-- Claim C7, amended: header context holds exactly when the enclosing
region's symbol children exist and the first child whose startLine is the
line preceding the cursor has kind requestLine or requestHeader (children
earlier in the list must not sit on that line); and when no enclosing region
is found — in particular with no document model — the header, mime-type and
authorization streams are all empty and the result reduces to the method,
meta-directive and reference streams. -/
theorem header_context_amended :
    (∀ (r : HttpRegion) (line : Int),
      isInRequestLine r line = true ↔
        ∃ cs, r.symbol.children = some cs ∧
          ∃ before c suf, cs = before ++ c :: suf ∧
            (∀ b ∈ before, b.startLine ≠ line - 1) ∧
            c.startLine = line - 1 ∧
            (c.kind = HttpSymbolKind.requestLine ∨
              c.kind = HttpSymbolKind.requestHeader)) ∧
    (∀ (kmd : List MetaDirective) (types : List (String × String))
        (lineText : String) (posLine : Int) (f : Option HttpFile),
      findHttpRegion f posLine = none →
      provideCompletionItems kmd types lineText posLine f =
        (getRequstMethodCompletionItems (jsTrim lineText)
          ++ getMetaData kmd (jsTrim lineText) false
          ++ getRefName (jsTrim lineText) f).map toCompletionItem) := by
  constructor
  · intro r line
    unfold isInRequestLine
    cases hch : r.symbol.children with
    | none => simp
    | some cs =>
      simp only []
      cases hf : cs.find? (fun obj => obj.startLine == line - 1) with
      | none =>
        simp only []
        constructor
        · intro h
          exact absurd h (by simp)
        · rintro ⟨cs2, hcs2, before, c, suf, hsplit, hbefore, hc, hkind⟩
          injection hcs2 with hcs2
          subst hcs2
          have hfc : cs.find? (fun obj => obj.startLine == line - 1) = some c := by
            apply List.find?_eq_some.mpr
            exact ⟨by simp [hc], before, suf, hsplit,
              fun a ha => by simp [hbefore a ha]⟩
          rw [hf] at hfc
          exact absurd hfc (by simp)
      | some preChild =>
        simp only []
        constructor
        · intro h
          obtain ⟨hpred, before, suf, hsplit, hall⟩ := List.find?_eq_some.mp hf
          refine ⟨cs, rfl, before, preChild, suf, hsplit, ?_, by simpa using hpred, ?_⟩
          · intro b hb
            simpa using hall b hb
          · rcases Bool.or_eq_true_iff.mp h with h1 | h1
            · exact Or.inl (by simpa using h1)
            · exact Or.inr (by simpa using h1)
        · rintro ⟨cs2, hcs2, before, c, suf, hsplit, hbefore, hc, hkind⟩
          injection hcs2 with hcs2
          subst hcs2
          have hfc : cs.find? (fun obj => obj.startLine == line - 1) = some c := by
            apply List.find?_eq_some.mpr
            exact ⟨by simp [hc], before, suf, hsplit,
              fun a ha => by simp [hbefore a ha]⟩
          rw [hf] at hfc
          injection hfc with hfc
          subst hfc
          rcases hkind with h1 | h1 <;> simp [h1]
  · intro kmd types lineText posLine f hnone
    have hreg : regionIsInRequestLine f posLine = false := by
      unfold regionIsInRequestLine
      rw [hnone]
    simp only [provideCompletionItems]
    rw [hnone, hreg]
    simp [getRequestHeaders, getMimetypes, getAuthorization]

/-- Witness for `header_context_amended`: with no document model no region is
found, and the result is the method, meta-directive and reference streams
only. -/
theorem header_context_amended_witness :
    findHttpRegion none 3 = none ∧
    provideCompletionItems [] [] "x" 3 none =
      (getRequstMethodCompletionItems (jsTrim "x")
        ++ getMetaData [] (jsTrim "x") false
        ++ getRefName (jsTrim "x") none).map toCompletionItem :=
  ⟨rfl, header_context_amended.2 [] [] "x" 3 none rfl⟩

/-- Claim C10, counterexample: on a comment line carrying content-type while
in header context, the provider output is a mime-type (Value kind) candidate,
while the meta-directive and reference streams are both empty — so the output
of a hash line is not confined to those two streams. -/
theorem hash_line_streams_cex :
    provideCompletionItems sampleDirectives [] "#content-type" 1 (some sampleHttpFile) =
      [toCompletionItem urlencodedItem] ∧
    getMetaData sampleDirectives "#content-type" true = [] ∧
    getRefName "#content-type" (some sampleHttpFile) = [] ∧
    (toCompletionItem urlencodedItem).kind = CompletionItemKind.value := by
  decide

/-- Claim C10, amended: a line whose trimmed text begins with the hash sign
never surfaces method keywords (no method name can start with it), and the
header stream is likewise empty, so the output reduces to the mime-type,
authorization, meta-directive and reference streams. -/
theorem hash_line_amended :
    (∀ textLine : String, jsStartsWith textLine "#" = true →
      getRequstMethodCompletionItems textLine = []) ∧
    (∀ (kmd : List MetaDirective) (types : List (String × String))
        (lineText : String) (posLine : Int) (f : Option HttpFile),
      jsStartsWith (jsTrim lineText) "#" = true →
      provideCompletionItems kmd types lineText posLine f =
        (getMimetypes types (jsTrim lineText) (regionIsInRequestLine f posLine)
          ++ getAuthorization (jsTrim lineText) (regionIsInRequestLine f posLine)
          ++ getMetaData kmd (jsTrim lineText) (regionIsInRequestLine f posLine)
          ++ getRefName (jsTrim lineText) f).map toCompletionItem) := by
  constructor
  · intro textLine h
    exact methods_empty_on_hash h
  · intro kmd types lineText posLine f h
    simp only [provideCompletionItems]
    rw [methods_empty_on_hash h, headers_empty_on_hash h]
    simp

/-- Witness for `hash_line_amended` on a hash line with no document model. -/
theorem hash_line_amended_witness :
    jsStartsWith (jsTrim "#x") "#" = true ∧
    provideCompletionItems [] [] "#x" 0 none =
      (getMimetypes [] (jsTrim "#x") (regionIsInRequestLine none 0)
        ++ getAuthorization (jsTrim "#x") (regionIsInRequestLine none 0)
        ++ getMetaData [] (jsTrim "#x") (regionIsInRequestLine none 0)
        ++ getRefName (jsTrim "#x") none).map toCompletionItem :=
  ⟨by decide, hash_line_amended.2 [] [] "#x" 0 none (by decide)⟩

end VscodeHttpyac
